import Mathlib

/-!
Verification of the DegreeFinder frontend (src/frontend/app.js).

The file shallowly embeds the validation, payload-assembly, rendering and
cascading-selection logic of `app.js` as executable Lean definitions, and
proves the specified properties about them.  JavaScript numbers that arise
from the decimal text of form fields are modelled exactly as scaled decimal
integers (`DecNum`); `parseInt`/`parseFloat` are modelled for plain decimal
literals (the only form the number fields produce), with `none`
standing for `NaN`.
-/

namespace DegreeFinder

/-! ## Models of the JavaScript primitives used by app.js -/

/-- Exact decimal number `mant / 10 ^ exp`: the value of a decimal literal. -/
structure DecNum where
  mant : Int
  exp : Nat
deriving DecidableEq, Repr

def pow10 : Nat → Int
  | 0 => 1
  | n + 1 => 10 * pow10 n

def DecNum.isNeg (x : DecNum) : Bool := x.mant < 0

def DecNum.gtHundred (x : DecNum) : Bool := 100 * pow10 x.exp < x.mant

def isSpaceChar (c : Char) : Bool :=
  c == ' ' || c == '\t' || c == '\n' || c == '\r'

/-- Longest run of leading digits of a character list, together with the rest. -/
def takeDigits : List Char → List Char × List Char
  | [] => ([], [])
  | c :: cs =>
    if c.isDigit then
      let p := takeDigits cs
      (c :: p.1, p.2)
    else ([], c :: cs)

def digitsValAux : Nat → List Char → Nat
  | acc, [] => acc
  | acc, c :: cs => digitsValAux (acc * 10 + (c.toNat - 48)) cs

def digitsVal (ds : List Char) : Nat := digitsValAux 0 ds

def parseSign : List Char → Int × List Char
  | '-' :: cs => (-1, cs)
  | '+' :: cs => (1, cs)
  | cs => (1, cs)

/-- Model of `parseInt(s, 10)`: skip spaces, optional sign, longest run of
leading digits; `none` models `NaN` when no digit is found. -/
def parseIntJS (s : String) : Option Int :=
  let cs := s.data.dropWhile isSpaceChar
  let sp := parseSign cs
  let dp := takeDigits sp.2
  if dp.1 = [] then none else some (sp.1 * (digitsVal dp.1 : Int))

/-- Model of `parseFloat(s)` on plain decimal literals: skip spaces, optional
sign, digits, optional dot and fraction digits; `none` models `NaN`. -/
def parseFloatJS (s : String) : Option DecNum :=
  let cs := s.data.dropWhile isSpaceChar
  let sp := parseSign cs
  let ip := takeDigits sp.2
  match ip.2 with
  | '.' :: rest =>
    let fp := takeDigits rest
    if ip.1 = [] ∧ fp.1 = [] then none
    else some ⟨sp.1 * (digitsVal (ip.1 ++ fp.1) : Int), fp.1.length⟩
  | _ => if ip.1 = [] then none else some ⟨sp.1 * (digitsVal ip.1 : Int), 0⟩

def natToStrAux : Nat → Nat → List Char
  | 0, _ => []
  | fuel + 1, n =>
    if n = 0 then [] else natToStrAux fuel (n / 10) ++ [Char.ofNat (48 + n % 10)]

def natToStr (n : Nat) : String :=
  if n = 0 then "0" else String.mk (natToStrAux (n + 1) n)

def padZeros (width : Nat) (s : String) : String :=
  String.mk (List.replicate (width - s.length) '0') ++ s

/-- Model of `Number.prototype.toFixed(digits)` on an exact decimal value:
round to the nearest multiple of `10 ^ -digits`, ties toward plus infinity
(the larger candidate, as the ECMAScript algorithm specifies). -/
def DecNum.toFixed (x : DecNum) (digits : Nat) : String :=
  let scaledNum : Int := 2 * x.mant * pow10 digits + pow10 x.exp
  let n : Int := Int.fdiv scaledNum (2 * pow10 x.exp)
  let sign := if n < 0 then "-" else ""
  let ipart := natToStr (n.natAbs / (pow10 digits).toNat)
  let fpart := natToStr (n.natAbs % (pow10 digits).toNat)
  if digits = 0 then sign ++ ipart
  else sign ++ ipart ++ "." ++ padZeros digits fpart

/-! ## Subject rows and `readSubjects` (app.js lines 65–97) -/

/-- One `.row` widget: dataset name/display/allowed plus the raw string
values of its unit `select` and score `input`. -/
structure SubjectRow where
  name : String
  display : String
  allowed : List Int
  uRaw : String
  sRaw : String
deriving DecidableEq, Repr

/-- One element pushed onto `arr`: `units` is `parseInt(uRaw,10)` and
`score` is `parseFloat(sRaw)`, with `none` modelling `NaN`. -/
structure SubjectEntry where
  name : String
  units : Option Int
  score : Option DecNum
deriving DecidableEq, Repr

def mkEntry (r : SubjectRow) : SubjectEntry :=
  ⟨r.name, parseIntJS r.uRaw, parseFloatJS r.sRaw⟩

def noUnitMsg (display : String) : String :=
  "לא נבחר מספר יח״ל עבור \"" ++ display ++ "\"."

def invalidUnitMsg (display : String) : String :=
  "מספר יח״ל עבור \"" ++ display ++ "\" אינו תקין."

def noScoreMsg (display : String) : String :=
  "לא הוזן ציון עבור \"" ++ display ++ "\"."

def scoreRangeMsg (display : String) : String :=
  "ציון עבור \"" ++ display ++ "\" צריך להיות בין 0 ל־100."

def invalidValuesMsg (display : String) : String :=
  "\"" ++ display ++ "\" – ערכים לא תקינים."

/-- Model of `allowed.includes(parseInt(uRaw,10))`: `NaN` is never found. -/
def unitAllowed (r : SubjectRow) : Bool :=
  match parseIntJS r.uRaw with
  | none => false
  | some u => r.allowed.contains u

/-- Negation of `isNaN(s) || s<0 || s>100` for `s = parseFloat(sRaw)`. -/
def scoreValid (r : SubjectRow) : Bool :=
  match parseFloatJS r.sRaw with
  | none => false
  | some s => !s.isNeg && !s.gtHundred

def electiveValid (r : SubjectRow) : Bool := unitAllowed r && scoreValid r

def bothFilled (r : SubjectRow) : Bool := r.uRaw != "" && r.sRaw != ""

/-- The errors pushed for one row inside the `if (required)` block. -/
def requiredRowErrors (r : SubjectRow) : List String :=
  (if r.uRaw = "" then [noUnitMsg r.display]
   else if unitAllowed r then [] else [invalidUnitMsg r.display])
  ++ (if r.sRaw = "" then [noScoreMsg r.display]
      else if scoreValid r then [] else [scoreRangeMsg r.display])

/-- The body of the `rows.forEach` callback of `readSubjects`, split into the
entries and errors it pushes for one row. -/
def readRow (required : Bool) (r : SubjectRow) : List SubjectEntry × List String :=
  if required then
    (if bothFilled r then [mkEntry r] else [], requiredRowErrors r)
  else
    if bothFilled r then
      if electiveValid r then ([mkEntry r], [])
      else ([], [invalidValuesMsg r.display])
    else ([], [])

/-- Model of `readSubjects(containerId, required)`: processes the rows in document
order, collecting `{ subjects, errors }`. -/
def readSubjects : List SubjectRow → Bool → List SubjectEntry × List String
  | [], _ => ([], [])
  | r :: rest, required =>
    let head := readRow required r
    let tail := readSubjects rest required
    (head.1 ++ tail.1, head.2 ++ tail.2)

def rowErrorsConcat : List SubjectRow → List String
  | [] => []
  | r :: rest => requiredRowErrors r ++ rowErrorsConcat rest

/-- C1: in mandatory mode (`required = true`), `readSubjects` emits an entry
for a row exactly when both its raw unit and raw score fields are non-empty,
regardless of the validity of either field; the error list is exactly the
concatenation, in row order, of each row's individual field errors
(empty unit / unit not allowed / empty score / score NaN or outside [0,100]),
so an invalid field never suppresses the entry. -/
theorem readSubjects_mandatory_spec (rows : List SubjectRow) :
    (readSubjects rows true).1 = (rows.filter bothFilled).map mkEntry
    ∧ (readSubjects rows true).2 = rowErrorsConcat rows := by
  induction rows with
  | nil => exact ⟨rfl, rfl⟩
  | cons r rest ih =>
    cases hb : bothFilled r <;>
      simp [readSubjects, readRow, rowErrorsConcat, hb, ih.1, ih.2]

/-- C2 counterexample: for a mandatory row whose unit selection is empty and
whose score field holds "77", the returned subject list is empty — no entry
for the row is included (the claim asserts one is), while the error list is
exactly the single no-unit-selected message. -/
theorem readSubjects_emptyUnit_score77_no_entry :
    (readSubjects [⟨"math", "מתמטיקה", [4, 5], "", "77"⟩] true).1 = []
    ∧ (readSubjects [⟨"math", "מתמטיקה", [4, 5], "", "77"⟩] true).2
        = [noUnitMsg "מתמטיקה"] := by
  decide

/-- C2 (amended): for a mandatory row whose unit selection is empty and whose
score field is non-empty with a valid score (such as "77"), `readSubjects`
produces exactly one error for the row — the no-unit-selected message — and
includes no entry for that row, since entries require both raw fields
non-empty. -/
theorem readSubjects_emptyUnit_validScore (r : SubjectRow) (hu : r.uRaw = "")
    (hs : scoreValid r = true) (hsne : r.sRaw ≠ "") :
    readSubjects [r] true = ([], [noUnitMsg r.display]) := by
  have hb : bothFilled r = false := by
    simp [bothFilled, hu]
  simp [readSubjects, readRow, requiredRowErrors, hb, hu, hs, hsne]

/-- C2 witness: the amended statement instantiated at the concrete row of the
claim (unit empty, score "77"). -/
theorem readSubjects_emptyUnit_validScore_witness :
    readSubjects [⟨"math", "מתמטיקה", [4, 5], "", "77"⟩] true
      = ([], [noUnitMsg "מתמטיקה"]) :=
  readSubjects_emptyUnit_validScore ⟨"math", "מתמטיקה", [4, 5], "", "77"⟩
    rfl (by decide) (by decide)

/-- C3: in elective mode (`required = false`), `readSubjects` emits an entry
exactly for the rows whose two raw fields are non-empty and jointly valid
(unit in the allowed set, score numeric in [0,100]); each row that is filled
but not jointly valid contributes exactly one "invalid values" error; a row
with an empty field contributes neither an entry nor an error. -/
theorem readSubjects_elective_spec (rows : List SubjectRow) :
    (readSubjects rows false).1
      = ((rows.filter fun r => bothFilled r && electiveValid r).map mkEntry)
    ∧ (readSubjects rows false).2
      = ((rows.filter fun r => bothFilled r && !electiveValid r).map
          fun r => invalidValuesMsg r.display) := by
  induction rows with
  | nil => exact ⟨rfl, rfl⟩
  | cons r rest ih =>
    cases hb : bothFilled r <;> cases hv : electiveValid r <;>
      simp [readSubjects, readRow, hb, hv, ih.1, ih.2]

/-! ## `onCompute` (app.js lines 271–311) -/

def noInstitutionMsg : String := "יש לבחור לפחות מוסד אחד."

def noPsyMsg : String := "יש להזין ציון פסיכומטרי."

def psyRangeMsg : String := "ציון פסיכומטרי חייב להיות בין 200 ל־800."

/-- The relevant DOM inputs read by `onCompute`: selected institution
checkboxes, the raw psychometric field, the two row containers, and the
current selected-program-id set (in insertion order, as `Array.from` gives). -/
structure ComputeForm where
  selectedInstitutions : List String
  psyRaw : String
  mandatoryRows : List SubjectRow
  electiveRows : List SubjectRow
  selectedProgramIds : List String

/-- The JSON body POSTed to `/compute`; `psychometric_total` is
`parseInt(psyRaw, 10)` with `none` modelling `NaN`. -/
structure ComputePayload where
  institutions : List String
  psychometric_total : Option Int
  subjects : List SubjectEntry
  program_ids : List String
deriving DecidableEq

/-- Observable outcome of `onCompute`: either the aggregated error list is
displayed and no request is made, or exactly one POST of the given payload is
issued. -/
inductive ComputeOutcome where
  | showErrors (msgs : List String)
  | postCompute (payload : ComputePayload)
deriving DecidableEq

def institutionErrors (insts : List String) : List String :=
  if insts.isEmpty then [noInstitutionMsg] else []

def psyErrors (psyRaw : String) : List String :=
  if psyRaw = "" then [noPsyMsg]
  else
    match parseIntJS psyRaw with
    | none => [psyRangeMsg]
    | some p => if p < 200 ∨ p > 800 then [psyRangeMsg] else []

def collectedErrors (f : ComputeForm) : List String :=
  institutionErrors f.selectedInstitutions
    ++ psyErrors f.psyRaw
    ++ (readSubjects f.mandatoryRows true).2
    ++ (readSubjects f.electiveRows false).2

def computePayload (f : ComputeForm) : ComputePayload :=
  ⟨f.selectedInstitutions, parseIntJS f.psyRaw,
    (readSubjects f.mandatoryRows true).1 ++ (readSubjects f.electiveRows false).1,
    f.selectedProgramIds⟩

/-- Model of `onCompute()`: builds the error list (institution, then psychometric,
then mandatory, then elective errors), short-circuits to the error display
when it is non-empty, and otherwise POSTs the assembled payload. -/
def onCompute (f : ComputeForm) : ComputeOutcome :=
  if collectedErrors f = [] then ComputeOutcome.postCompute (computePayload f)
  else ComputeOutcome.showErrors (collectedErrors f)

/-- C4: whenever the collected error list is non-empty, `onCompute` only
displays it — ordered institution/psychometric errors first, then
mandatory-subject errors, then elective-subject errors — and issues no
network request (the `showErrors` outcome carries no POST); when the error
list is empty it issues exactly one POST whose payload holds the selected
institutions, the parsed psychometric total, the mandatory entries followed
by the elective entries, and the current selected-program-id list. -/
theorem onCompute_spec (f : ComputeForm) :
    (collectedErrors f ≠ [] →
      onCompute f = ComputeOutcome.showErrors
        (institutionErrors f.selectedInstitutions ++ psyErrors f.psyRaw
          ++ (readSubjects f.mandatoryRows true).2
          ++ (readSubjects f.electiveRows false).2))
    ∧ (collectedErrors f = [] →
      onCompute f = ComputeOutcome.postCompute
        ⟨f.selectedInstitutions, parseIntJS f.psyRaw,
          (readSubjects f.mandatoryRows true).1 ++ (readSubjects f.electiveRows false).1,
          f.selectedProgramIds⟩) := by
  constructor
  · intro h
    simp only [onCompute, if_neg h]
    rfl
  · intro h
    simp only [onCompute, if_pos h]
    rfl

/-- C4 witness: with no institution and no psychometric entry, `onCompute`
only displays the two aggregated errors; with technion selected, a valid
psychometric total and one fully valid mandatory row, it POSTs exactly the
collected payload with an empty `program_ids`. -/
theorem onCompute_spec_witness :
    onCompute ⟨[], "", [], [], []⟩
        = ComputeOutcome.showErrors [noInstitutionMsg, noPsyMsg]
    ∧ onCompute ⟨["technion"], "650", [⟨"math", "מתמטיקה", [4, 5], "5", "95"⟩], [], []⟩
        = ComputeOutcome.postCompute
            ⟨["technion"], some 650, [⟨"math", some 5, some ⟨95, 0⟩⟩], []⟩ := by
  constructor
  · exact ((onCompute_spec ⟨[], "", [], [], []⟩).1 (by decide)).trans (by decide)
  · exact ((onCompute_spec
      ⟨["technion"], "650", [⟨"math", "מתמטיקה", [4, 5], "5", "95"⟩], [], []⟩).2
        (by decide)).trans (by decide)

/-! ## `renderResults` and `safeNumberToFixed` (app.js lines 26–31, 313–348) -/

/-- A JavaScript value occurring in an optional field of a result object:
missing (`undefined`), `null`, a number, or some other value whose string
form is kept.  Numbers are the exact decimals of `DecNum`. -/
inductive JsVal where
  | undef
  | null
  | num (x : DecNum)
  | str (s : String)
deriving DecidableEq, Repr

/-- Whole-string decimal parse used by `Number(...)` coercion: the entire
input (after trimming) must be a signed decimal literal. -/
def parseFullDecimal (cs : List Char) : Option DecNum :=
  let sp := parseSign cs
  let ip := takeDigits sp.2
  match ip.2 with
  | '.' :: rest =>
    let fp := takeDigits rest
    if (ip.1 = [] ∧ fp.1 = []) ∨ fp.2 ≠ [] then none
    else some ⟨sp.1 * (digitsVal (ip.1 ++ fp.1) : Int), fp.1.length⟩
  | [] => if ip.1 = [] then none else some ⟨sp.1 * (digitsVal ip.1 : Int), 0⟩
  | _ => none

/-- Model of `Number(value)` (`none` models `NaN`): `undefined` is `NaN`,
`null` is `0`, a numeric string (or blank string, which is `0`) converts,
any other string is `NaN`. -/
def toNumber : JsVal → Option DecNum
  | JsVal.undef => none
  | JsVal.null => some ⟨0, 0⟩
  | JsVal.num x => some x
  | JsVal.str s =>
    let t := ((s.data.dropWhile isSpaceChar).reverse.dropWhile isSpaceChar).reverse
    if t = [] then some ⟨0, 0⟩ else parseFullDecimal t

/-- Model of `safeNumberToFixed(value, digits)`: "-" for `undefined`/`null`, "-" when
`Number(value)` is `NaN`, otherwise `toFixed(digits)`. -/
def safeNumberToFixed (value : JsVal) (digits : Nat) : String :=
  match value with
  | JsVal.undef => "-"
  | JsVal.null => "-"
  | v =>
    match toNumber v with
    | none => "-"
    | some n => n.toFixed digits

def charToLowerAscii (c : Char) : Char :=
  if 'A' ≤ c ∧ c ≤ 'Z' then Char.ofNat (c.toNat + 32) else c

def toLowerJS (s : String) : String := String.mk (s.data.map charToLowerAscii)

def hebrewInstitutionName (inst : String) : String :=
  let key := toLowerJS inst
  if key = "technion" then "הטכניון"
  else if key = "huji" then "האוניברסיטה העברית"
  else if key = "bgu" then "בן גוריון"
  else inst

/-- Display form of an exact decimal, as `String(number)` produces for the
decimal values arising here: no trailing fractional zeros. -/
def decNumToString (x : DecNum) : String :=
  let sign := if x.mant < 0 then "-" else ""
  let m := x.mant.natAbs
  let base := (pow10 x.exp).toNat
  let ip := natToStr (m / base)
  let frac := (padZeros x.exp (natToStr (m % base))).data
  let stripped := (frac.reverse.dropWhile (fun c => c == '0')).reverse
  if stripped = [] then sign ++ ip else sign ++ ip ++ "." ++ String.mk stripped

/-- Model of `String(v)` / template interpolation of `v`. -/
def jsToString : JsVal → String
  | JsVal.undef => "undefined"
  | JsVal.null => "null"
  | JsVal.num x => decNumToString x
  | JsVal.str s => s

/-- One element of the `/compute` response array, with the optional numeric
fields kept as raw JavaScript values. -/
structure ResultItem where
  passed : Bool
  institution : Option String
  program_name : String
  program_id : String
  D : JsVal
  P : JsVal
  S : JsVal
  threshold : JsVal
  explanations : Option (List String)
deriving DecidableEq

/-- The text content of one rendered result card. -/
structure ResultCard where
  passedClass : Bool
  statusText : String
  title : String
  dText : String
  pText : String
  sText : String
  tText : String
  explanations : List String
deriving DecidableEq

/-- The body of the `data.forEach` callback of `renderResults`. -/
def renderCard (p : ResultItem) : ResultCard where
  passedClass := p.passed
  statusText := if p.passed then "עבר ✓" else "לא עבר ✗"
  title := hebrewInstitutionName (p.institution.getD "") ++ " – "
    ++ p.program_name ++ " (" ++ p.program_id ++ ")"
  dText := safeNumberToFixed p.D 2
  sText := safeNumberToFixed p.S 3
  pText :=
    match p.P with
    | JsVal.undef => "-"
    | JsVal.null => "-"
    | v => jsToString v
  tText :=
    match p.threshold with
    | JsVal.undef => "-"
    | JsVal.null => "-"
    | v => jsToString v
  explanations := p.explanations.getD []

/-- The argument of `renderResults`: either not an array at all, or a list of
result objects. -/
inductive ResultsData where
  | notArray
  | arr (items : List ResultItem)

/-- The rendered `#results` region: a lone placeholder text or a card list. -/
inductive RenderedResults where
  | noResults (msg : String)
  | cards (cs : List ResultCard)
deriving DecidableEq

def noResultsMsg : String := "לא נמצאו תוצאות."

/-- Model of `renderResults(data)`: placeholder for a non-array or empty input, one
card per element otherwise. -/
def renderResults : ResultsData → RenderedResults
  | ResultsData.notArray => RenderedResults.noResults noResultsMsg
  | ResultsData.arr [] => RenderedResults.noResults noResultsMsg
  | ResultsData.arr (p :: rest) => RenderedResults.cards ((p :: rest).map renderCard)

/-- C5: `renderResults` of a non-array or empty input produces the single
"no results" placeholder, never an empty container; rendering is total on
every field shape (absent, null, numeric or other — no exception path
exists), with D formatted to 2 decimal places and S to 3 via
`safeNumberToFixed`, which yields "-" exactly when the value is absent or
non-numeric, while P and threshold are shown verbatim, or as "-" when
absent. -/
theorem renderResults_spec :
    renderResults ResultsData.notArray = RenderedResults.noResults noResultsMsg
    ∧ (∀ items : List ResultItem,
        renderResults (ResultsData.arr items)
          = if items = [] then RenderedResults.noResults noResultsMsg
            else RenderedResults.cards (items.map renderCard))
    ∧ (∀ p : ResultItem,
        (renderCard p).dText = safeNumberToFixed p.D 2
        ∧ (renderCard p).sText = safeNumberToFixed p.S 3)
    ∧ (∀ (v : JsVal) (d : Nat),
        safeNumberToFixed v d
          = if v = JsVal.undef ∨ v = JsVal.null ∨ toNumber v = none then "-"
            else ((toNumber v).getD ⟨0, 0⟩).toFixed d)
    ∧ (∀ p : ResultItem,
        (renderCard p).pText
            = (if p.P = JsVal.undef ∨ p.P = JsVal.null then "-" else jsToString p.P)
        ∧ (renderCard p).tText
            = (if p.threshold = JsVal.undef ∨ p.threshold = JsVal.null then "-"
               else jsToString p.threshold)) := by
  refine ⟨rfl, ?_, ?_, ?_, ?_⟩
  · intro items
    cases items with
    | nil => rfl
    | cons p rest => simp [renderResults]
  · intro p
    exact ⟨rfl, rfl⟩
  · intro v d
    cases v with
    | undef => rfl
    | null => rfl
    | num x => rfl
    | str s =>
      cases h : toNumber (JsVal.str s) with
      | none => simp [safeNumberToFixed, h]
      | some n => simp [safeNumberToFixed, h]
  · intro p
    constructor
    · cases hP : p.P <;> simp [renderCard, hP, jsToString]
    · cases hT : p.threshold <;> simp [renderCard, hT, jsToString]

/-! ## Faculty filtering and program chips (app.js lines 130–266) -/

/-- One element of a `/programs?institution=...` response. -/
structure Program where
  id : String
  name : String
  institution : String
  faculty : Option String
deriving DecidableEq, Repr

/-- Model of `String.prototype.trim()` (on the whitespace these pages use). -/
def trimJS (s : String) : String :=
  String.mk (((s.data.dropWhile isSpaceChar).reverse.dropWhile isSpaceChar).reverse)

/-- Association-list lookup, modelling access to a keyed global object. -/
def alookup {α : Type} : List (String × α) → String → Option α
  | [], _ => none
  | (k, v) :: rest, key => if k = key then some v else alookup rest key

/-- Model of `FACULTY_SELECTIONS[inst] ? Array.from(FACULTY_SELECTIONS[inst]) : []`. -/
def facLookup (sels : List (String × List String)) (inst : String) : List String :=
  (alookup sels inst).getD []

/-- The programs whose trimmed faculty is among the selected faculties, in
the order of the cached program list. -/
def visiblePrograms (selectedFacs : List String) (programs : List Program) :
    List Program :=
  programs.filter fun p => selectedFacs.contains (trimJS (p.faculty.getD ""))

/-- One rendered program chip: label text, dataset fields and whether the
`selected` class is present. -/
structure ProgramChip where
  text : String
  programId : String
  institution : String
  selected : Bool
deriving DecidableEq, Repr

def mkProgramChip (selectedIds : List String) (inst : String) (p : Program) :
    ProgramChip :=
  ⟨p.name ++ " (" ++ p.id ++ ")", p.id, inst, selectedIds.contains p.id⟩

/-- The content of one institution's programs area after a repaint. -/
inductive ProgramsAreaView where
  | facultyHint (msg : String)
  | chips (cs : List ProgramChip)
  | noProgramsInFaculties (msg : String)
deriving DecidableEq, Repr

def facultyHintMsg : String := "סמן/י פקולטה כדי לראות את התארים שלה."

def noProgramsHereMsg : String := "אין תארים בפקולטות שסומנו."

/-- Model of `renderProgramsForSelectedFaculties(inst, programs, container)`: clears
the container; with no selected faculty it only shows the hint; otherwise it
appends one chip per visible program and, if none, the empty-message. -/
def renderProgramsForSelectedFaculties (facSels : List (String × List String))
    (selectedIds : List String) (inst : String) (programs : List Program) :
    ProgramsAreaView :=
  let selectedFacs := facLookup facSels inst
  if selectedFacs = [] then ProgramsAreaView.facultyHint facultyHintMsg
  else
    let cs := (visiblePrograms selectedFacs programs).map (mkProgramChip selectedIds inst)
    if cs = [] then ProgramsAreaView.noProgramsInFaculties noProgramsHereMsg
    else ProgramsAreaView.chips cs

/-- The program chips a view displays (none for either placeholder). -/
def viewChips : ProgramsAreaView → List ProgramChip
  | ProgramsAreaView.chips cs => cs
  | _ => []

/-- C6: the visible program list of an institution is its cached program
list in fetch order filtered to the programs whose trimmed faculty is in the
institution's current faculty-selection set; it is empty — only a
placeholder is shown — whenever that selection set is empty; and the result
depends only on that institution's own selection entry, regardless of the
state of other institutions. -/
theorem renderPrograms_spec (facSels facSels2 : List (String × List String))
    (selectedIds : List String) (inst : String) (programs : List Program) :
    (facLookup facSels inst = [] →
      renderProgramsForSelectedFaculties facSels selectedIds inst programs
        = ProgramsAreaView.facultyHint facultyHintMsg)
    ∧ viewChips (renderProgramsForSelectedFaculties facSels selectedIds inst programs)
        = (if facLookup facSels inst = [] then []
           else (visiblePrograms (facLookup facSels inst) programs).map
              (mkProgramChip selectedIds inst))
    ∧ (facLookup facSels2 inst = facLookup facSels inst →
      renderProgramsForSelectedFaculties facSels2 selectedIds inst programs
        = renderProgramsForSelectedFaculties facSels selectedIds inst programs) := by
  refine ⟨?_, ?_, ?_⟩
  · intro h
    simp [renderProgramsForSelectedFaculties, h]
  · by_cases h : facLookup facSels inst = []
    · simp [renderProgramsForSelectedFaculties, h, viewChips]
    · simp only [renderProgramsForSelectedFaculties, if_neg h]
      by_cases hcs : (visiblePrograms (facLookup facSels inst) programs).map
          (mkProgramChip selectedIds inst) = []
      · simp [hcs, viewChips]
      · simp [hcs, viewChips]
  · intro h
    simp [renderProgramsForSelectedFaculties, h]

def demoPrograms : List Program :=
  [⟨"p1", "CS", "t", some "Eng"⟩, ⟨"p2", "Bio", "t", some "Life"⟩]

/-- C6 witness: with no faculty selected only the hint is shown, and an
unrelated institution's selection entry does not change the rendered view. -/
theorem renderPrograms_spec_witness :
    renderProgramsForSelectedFaculties [] ["p1"] "t" demoPrograms
        = ProgramsAreaView.facultyHint facultyHintMsg
    ∧ renderProgramsForSelectedFaculties [("x", ["Med"]), ("t", ["Eng"])] ["p1"] "t"
          demoPrograms
        = renderProgramsForSelectedFaculties [("t", ["Eng"])] ["p1"] "t" demoPrograms :=
  ⟨(renderPrograms_spec [] [] ["p1"] "t" demoPrograms).1 (by decide),
   (renderPrograms_spec [("t", ["Eng"])] [("x", ["Med"]), ("t", ["Eng"])] ["p1"] "t"
      demoPrograms).2.2 (by decide)⟩

/-! ## Session state machine (app.js lines 131–266)

The mutable session state of the page: the program cache, the per-institution
faculty selections, the global selected-program-id set (all keyed objects /
`Set`s, modelled as insertion-ordered association lists and lists), plus the
error and results regions.  The user-driven handlers become a step function
on this state that also emits the ordered trace of its externally visible
actions (hiding errors, clearing results, awaited fetches, group renders) —
`await` in a `for...of` loop runs these strictly in sequence. -/

structure UiState where
  programCache : List (String × List Program)
  facultySelections : List (String × List String)
  selectedProgramIds : List String
  errorsList : List String
  resultsView : Option RenderedResults

/-- The events the handlers of app.js react to: an institution-checkbox
change (carrying the now-checked institutions and the remote lists a fetch
would return), a faculty-checkbox change, and a click on a program chip. -/
inductive UiEvent where
  | institutionsChanged (selected : List String) (fetch : String → List Program)
  | toggleFaculty (inst : String) (fac : String) (checked : Bool)
  | clickProgramChip (inst : String) (pid : String)

/-- Externally visible actions, in execution order. -/
inductive UiAction where
  | hideErrorsAct
  | clearResultsAct
  | fetchProgramsAct (inst : String)
  | renderGroupAct (inst : String)
deriving DecidableEq, Repr

/-- Insertion-ordered update of a keyed object entry. -/
def setEntry {α : Type} : List (String × α) → String → α → List (String × α)
  | [], key, v => [(key, v)]
  | (k, w) :: rest, key, v =>
    if k = key then (k, v) :: rest else (k, w) :: setEntry rest key v

/-- The body of the `for (const inst of selectedInsts)` loop: fetch and cache
the institution's programs unless already cached, then render its group
(`renderInstitutionFaculties`, which creates the institution's empty faculty
selection set when absent). -/
def processInst (fetch : String → List Program) (st : UiState) (inst : String) :
    UiState × List UiAction :=
  let cacheStep :=
    match alookup st.programCache inst with
    | some _ => (st.programCache, ([] : List UiAction))
    | none => (st.programCache ++ [(inst, fetch inst)], [UiAction.fetchProgramsAct inst])
  let facs :=
    match alookup st.facultySelections inst with
    | some _ => st.facultySelections
    | none => st.facultySelections ++ [(inst, [])]
  ({ st with programCache := cacheStep.1, facultySelections := facs },
    cacheStep.2 ++ [UiAction.renderGroupAct inst])

def stepInsts (fetch : String → List Program) :
    UiState × List UiAction → List String → UiState × List UiAction
  | acc, [] => acc
  | acc, inst :: rest =>
    let r := processInst fetch acc.1 inst
    stepInsts fetch (r.1, acc.2 ++ r.2) rest

/-- The transition of one event, with its emitted action trace.
`onInstitutionsChanged` first hides errors and clears results, then walks
the selected institutions sequentially; a faculty toggle mutates only that
institution's selection set; a program-chip click (possible only for a chip
the current view displays) toggles the id in the global set. -/
def step (st : UiState) : UiEvent → UiState × List UiAction
  | UiEvent.institutionsChanged selected fetch =>
    let st1 := { st with errorsList := [], resultsView := none }
    let r := stepInsts fetch (st1, []) selected
    (r.1, UiAction.hideErrorsAct :: UiAction.clearResultsAct :: r.2)
  | UiEvent.toggleFaculty inst fac checked =>
    let cur := facLookup st.facultySelections inst
    let updated :=
      if checked then (if cur.contains fac then cur else cur ++ [fac])
      else cur.filter fun g => g != fac
    ({ st with facultySelections := setEntry st.facultySelections inst updated }, [])
  | UiEvent.clickProgramChip inst pid =>
    let visibleIds :=
      (visiblePrograms (facLookup st.facultySelections inst)
        ((alookup st.programCache inst).getD [])).map Program.id
    if visibleIds.contains pid then
      if st.selectedProgramIds.contains pid then
        ({ st with selectedProgramIds := st.selectedProgramIds.filter fun q => q != pid },
          [])
      else ({ st with selectedProgramIds := st.selectedProgramIds ++ [pid] }, [])
    else (st, [])

def initState : UiState := ⟨[], [], [], [], none⟩

/-- States the session can be in: everything obtainable from the initial
empty state by user events. -/
inductive Reachable : UiState → Prop
  | init : Reachable initState
  | next (s : UiState) (e : UiEvent) : Reachable s → Reachable (step s e).1

/-! ### Helper lemmas about the keyed-object model and the step function -/

theorem alookup_append_sing_ne {α : Type} (l : List (String × α)) (k k' : String)
    (v : α) (h : k' ≠ k) : alookup (l ++ [(k', v)]) k = alookup l k := by
  induction l with
  | nil => simp [alookup, h]
  | cons p rest ih =>
    obtain ⟨a, b⟩ := p
    by_cases hk : a = k <;> simp [alookup, hk, ih]

theorem alookup_append_of_some {α : Type} (l m : List (String × α)) (k : String)
    (v : α) (h : alookup l k = some v) : alookup (l ++ m) k = some v := by
  induction l with
  | nil => simp [alookup] at h
  | cons p rest ih =>
    obtain ⟨a, b⟩ := p
    by_cases hk : a = k
    · simp [alookup, hk] at h ⊢
      exact h
    · simp [alookup, hk] at h ⊢
      exact ih h

theorem processInst_misc (fetch : String → List Program) (st : UiState)
    (inst : String) :
    (processInst fetch st inst).1.selectedProgramIds = st.selectedProgramIds
    ∧ (processInst fetch st inst).1.errorsList = st.errorsList
    ∧ (processInst fetch st inst).1.resultsView = st.resultsView :=
  ⟨rfl, rfl, rfl⟩

theorem processInst_eq_some (fetch : String → List Program) (st : UiState)
    (inst : String) (l : List Program) (hc : alookup st.programCache inst = some l) :
    (processInst fetch st inst).1.programCache = st.programCache
    ∧ (processInst fetch st inst).2 = [UiAction.renderGroupAct inst] := by
  simp [processInst, hc]

theorem processInst_eq_none (fetch : String → List Program) (st : UiState)
    (inst : String) (hc : alookup st.programCache inst = none) :
    (processInst fetch st inst).1.programCache = st.programCache ++ [(inst, fetch inst)]
    ∧ (processInst fetch st inst).2
        = [UiAction.fetchProgramsAct inst, UiAction.renderGroupAct inst] := by
  simp [processInst, hc]

theorem processInst_cache_some (fetch : String → List Program) (st : UiState)
    (inst i : String) (l : List Program) (h : alookup st.programCache i = some l) :
    alookup (processInst fetch st inst).1.programCache i = some l := by
  cases hc : alookup st.programCache inst with
  | some m => rw [(processInst_eq_some fetch st inst m hc).1]; exact h
  | none =>
    rw [(processInst_eq_none fetch st inst hc).1]
    exact alookup_append_of_some _ _ _ _ h

theorem processInst_no_refetch (fetch : String → List Program) (st : UiState)
    (inst i : String) (l : List Program) (h : alookup st.programCache i = some l) :
    UiAction.fetchProgramsAct i ∉ (processInst fetch st inst).2 := by
  cases hc : alookup st.programCache inst with
  | some m => simp [(processInst_eq_some fetch st inst m hc).2]
  | none =>
    rw [(processInst_eq_none fetch st inst hc).2]
    intro hmem
    have hne : i ≠ inst := by
      intro he
      rw [he, hc] at h
      exact Option.noConfusion h
    simp [hne] at hmem

theorem processInst_other_key (fetch : String → List Program) (st : UiState)
    (inst i : String) (h : inst ≠ i) :
    alookup (processInst fetch st inst).1.programCache i = alookup st.programCache i
    ∧ alookup (processInst fetch st inst).1.facultySelections i
        = alookup st.facultySelections i := by
  constructor
  · cases hc : alookup st.programCache inst with
    | some m => rw [(processInst_eq_some fetch st inst m hc).1]
    | none =>
      rw [(processInst_eq_none fetch st inst hc).1]
      exact alookup_append_sing_ne _ _ _ _ h
  · show alookup (match alookup st.facultySelections inst with
      | some _ => st.facultySelections
      | none => st.facultySelections ++ [(inst, [])]) i = alookup st.facultySelections i
    cases hf : alookup st.facultySelections inst with
    | some m => rfl
    | none => exact alookup_append_sing_ne _ _ _ _ h

theorem stepInsts_misc (fetch : String → List Program) (selected : List String) :
    ∀ (st : UiState) (acc : List UiAction),
      (stepInsts fetch (st, acc) selected).1.selectedProgramIds = st.selectedProgramIds
      ∧ (stepInsts fetch (st, acc) selected).1.errorsList = st.errorsList
      ∧ (stepInsts fetch (st, acc) selected).1.resultsView = st.resultsView := by
  induction selected with
  | nil => exact fun st acc => ⟨rfl, rfl, rfl⟩
  | cons inst rest ih =>
    intro st acc
    exact ih (processInst fetch st inst).1 (acc ++ (processInst fetch st inst).2)

theorem stepInsts_cache_some (fetch : String → List Program) (selected : List String) :
    ∀ (st : UiState) (acc : List UiAction) (i : String) (l : List Program),
      alookup st.programCache i = some l →
      alookup (stepInsts fetch (st, acc) selected).1.programCache i = some l := by
  induction selected with
  | nil => exact fun st acc i l h => h
  | cons inst rest ih =>
    intro st acc i l h
    exact ih (processInst fetch st inst).1 (acc ++ (processInst fetch st inst).2) i l
      (processInst_cache_some fetch st inst i l h)

theorem stepInsts_no_refetch (fetch : String → List Program) (selected : List String) :
    ∀ (st : UiState) (acc : List UiAction) (i : String) (l : List Program),
      alookup st.programCache i = some l →
      UiAction.fetchProgramsAct i ∉ acc →
      UiAction.fetchProgramsAct i ∉ (stepInsts fetch (st, acc) selected).2 := by
  induction selected with
  | nil => exact fun st acc i l _ hacc => hacc
  | cons inst rest ih =>
    intro st acc i l h hacc
    refine ih (processInst fetch st inst).1 (acc ++ (processInst fetch st inst).2) i l
      (processInst_cache_some fetch st inst i l h) ?_
    intro hmem
    rcases List.mem_append.mp hmem with hL | hR
    · exact hacc hL
    · exact processInst_no_refetch fetch st inst i l h hR

theorem stepInsts_other_key (fetch : String → List Program) (selected : List String) :
    ∀ (st : UiState) (acc : List UiAction) (i : String), i ∉ selected →
      alookup (stepInsts fetch (st, acc) selected).1.programCache i
          = alookup st.programCache i
      ∧ alookup (stepInsts fetch (st, acc) selected).1.facultySelections i
          = alookup st.facultySelections i := by
  induction selected with
  | nil => exact fun st acc i _ => ⟨rfl, rfl⟩
  | cons inst rest ih =>
    intro st acc i hi
    have hne : inst ≠ i := fun he => hi (he ▸ List.mem_cons_self inst rest)
    have hrest : i ∉ rest := fun hm => hi (List.mem_cons_of_mem inst hm)
    obtain ⟨h1, h2⟩ :=
      ih (processInst fetch st inst).1 (acc ++ (processInst fetch st inst).2) i hrest
    obtain ⟨g1, g2⟩ := processInst_other_key fetch st inst i hne
    exact ⟨h1.trans g1, h2.trans g2⟩

/-- The action trace the specification prescribes for one institution batch:
the institutions are processed strictly one after the other, each contributing
its own segment — a fetch when and only when it is not yet cached, immediately
followed by its group render — before the next institution is touched. -/
def batchTrace (fetch : String → List Program) :
    List (String × List Program) → List String → List UiAction
  | _, [] => []
  | cache, inst :: rest =>
    match alookup cache inst with
    | some _ => UiAction.renderGroupAct inst :: batchTrace fetch cache rest
    | none => UiAction.fetchProgramsAct inst :: UiAction.renderGroupAct inst ::
        batchTrace fetch (cache ++ [(inst, fetch inst)]) rest

/-- The institutions whose group title is rendered, in trace order. -/
def renderOrder : List UiAction → List String
  | [] => []
  | UiAction.renderGroupAct i :: rest => i :: renderOrder rest
  | _ :: rest => renderOrder rest

def isWorkAction : UiAction → Bool
  | UiAction.fetchProgramsAct _ => true
  | UiAction.renderGroupAct _ => true
  | _ => false

theorem stepInsts_trace (fetch : String → List Program) (selected : List String) :
    ∀ (st : UiState) (acc : List UiAction),
      (stepInsts fetch (st, acc) selected).2
        = acc ++ batchTrace fetch st.programCache selected := by
  induction selected with
  | nil => intro st acc; simp [stepInsts, batchTrace]
  | cons inst rest ih =>
    intro st acc
    show (stepInsts fetch
        ((processInst fetch st inst).1, acc ++ (processInst fetch st inst).2) rest).2
      = acc ++ batchTrace fetch st.programCache (inst :: rest)
    rw [ih]
    cases hc : alookup st.programCache inst with
    | some m =>
      rw [(processInst_eq_some fetch st inst m hc).1,
        (processInst_eq_some fetch st inst m hc).2]
      simp [batchTrace, hc]
    | none =>
      rw [(processInst_eq_none fetch st inst hc).1,
        (processInst_eq_none fetch st inst hc).2]
      simp [batchTrace, hc]

theorem renderOrder_batchTrace (fetch : String → List Program) (selected : List String) :
    ∀ cache, renderOrder (batchTrace fetch cache selected) = selected := by
  induction selected with
  | nil => intro cache; rfl
  | cons inst rest ih =>
    intro cache
    cases hc : alookup cache inst <;> simp [batchTrace, hc, renderOrder, ih]

theorem batchTrace_all_work (fetch : String → List Program) (selected : List String) :
    ∀ cache, (batchTrace fetch cache selected).all isWorkAction = true := by
  induction selected with
  | nil => intro cache; rfl
  | cons inst rest ih =>
    intro cache
    cases hc : alookup cache inst <;> simp [batchTrace, hc, isWorkAction, ih]

/-- C9: one institution-change event processes the selected institutions
strictly sequentially — its action trace is exactly the concatenation, in
user-selection order, of per-institution segments (an awaited fetch when the
institution is uncached, immediately followed by that institution's group
render) with no interleaving between institutions — so the group titles are
rendered in user-selection order. -/
theorem institutionsChanged_sequential (st : UiState) (selected : List String)
    (fetch : String → List Program) :
    (step st (UiEvent.institutionsChanged selected fetch)).2
        = UiAction.hideErrorsAct :: UiAction.clearResultsAct ::
            batchTrace fetch st.programCache selected
    ∧ renderOrder (step st (UiEvent.institutionsChanged selected fetch)).2 = selected := by
  have h : (step st (UiEvent.institutionsChanged selected fetch)).2
      = UiAction.hideErrorsAct :: UiAction.clearResultsAct ::
          batchTrace fetch st.programCache selected := by
    show UiAction.hideErrorsAct :: UiAction.clearResultsAct ::
        (stepInsts fetch ({ st with errorsList := [], resultsView := none }, []) selected).2
      = _
    rw [stepInsts_trace]
    rfl
  refine ⟨h, ?_⟩
  rw [h]
  show renderOrder (batchTrace fetch st.programCache selected) = selected
  exact renderOrder_batchTrace fetch selected st.programCache

/-- C10: every institution-change event first hides the error region and
clears the results region — the first two trace actions, before any fetch or
render work — and its final state has an empty error region and a cleared
results region, while `selectedProgramIds` is left unchanged. -/
theorem institutionsChanged_clears_first (st : UiState) (selected : List String)
    (fetch : String → List Program) :
    (step st (UiEvent.institutionsChanged selected fetch)).2.take 2
        = [UiAction.hideErrorsAct, UiAction.clearResultsAct]
    ∧ ((step st (UiEvent.institutionsChanged selected fetch)).2.drop 2).all isWorkAction
        = true
    ∧ (step st (UiEvent.institutionsChanged selected fetch)).1.errorsList = []
    ∧ (step st (UiEvent.institutionsChanged selected fetch)).1.resultsView = none
    ∧ (step st (UiEvent.institutionsChanged selected fetch)).1.selectedProgramIds
        = st.selectedProgramIds := by
  have h : (step st (UiEvent.institutionsChanged selected fetch)).2
      = UiAction.hideErrorsAct :: UiAction.clearResultsAct ::
          batchTrace fetch st.programCache selected := by
    show UiAction.hideErrorsAct :: UiAction.clearResultsAct ::
        (stepInsts fetch ({ st with errorsList := [], resultsView := none }, []) selected).2
      = _
    rw [stepInsts_trace]
    rfl
  have hmisc := stepInsts_misc fetch selected
    { st with errorsList := [], resultsView := none } []
  refine ⟨?_, ?_, hmisc.2.1, hmisc.2.2, hmisc.1⟩
  · rw [h]
    rfl
  · rw [h]
    exact batchTrace_all_work fetch selected st.programCache

/-- A program id appears in some fetched (cached) program list. -/
def idInCache (cache : List (String × List Program)) (pid : String) : Prop :=
  ∃ inst l, alookup cache inst = some l ∧ pid ∈ l.map Program.id

theorem visible_mem_cache (st : UiState) (inst pid : String)
    (h : ((visiblePrograms (facLookup st.facultySelections inst)
          ((alookup st.programCache inst).getD [])).map Program.id).contains pid
        = true) :
    idInCache st.programCache pid := by
  cases hc : alookup st.programCache inst with
  | none =>
    rw [hc] at h
    simp [visiblePrograms] at h
  | some l =>
    rw [hc] at h
    have hmem : pid ∈ (visiblePrograms (facLookup st.facultySelections inst) l).map
        Program.id := by
      simpa using h
    rcases List.mem_map.mp hmem with ⟨p, hpf, hid⟩
    exact ⟨inst, l, hc, List.mem_map.mpr ⟨p, List.mem_of_mem_filter hpf, hid⟩⟩

theorem step_preserves_idInCache (s : UiState) (e : UiEvent)
    (h : ∀ pid, pid ∈ s.selectedProgramIds → idInCache s.programCache pid) :
    ∀ pid, pid ∈ (step s e).1.selectedProgramIds → idInCache (step s e).1.programCache pid := by
  cases e with
  | institutionsChanged selected fetch =>
    intro pid hpid
    have hids := (stepInsts_misc fetch selected
      { s with errorsList := [], resultsView := none } []).1
    rw [show (step s (UiEvent.institutionsChanged selected fetch)).1.selectedProgramIds
        = s.selectedProgramIds from hids] at hpid
    rcases h pid hpid with ⟨inst, l, hc, hm⟩
    exact ⟨inst, l,
      stepInsts_cache_some fetch selected
        { s with errorsList := [], resultsView := none } [] inst l hc, hm⟩
  | toggleFaculty inst fac checked => exact fun pid hpid => h pid hpid
  | clickProgramChip inst q =>
    intro pid hpid
    simp only [step] at hpid ⊢
    by_cases hvis : ((visiblePrograms (facLookup s.facultySelections inst)
        ((alookup s.programCache inst).getD [])).map Program.id).contains q = true
    · rw [if_pos hvis] at hpid ⊢
      by_cases hsel : s.selectedProgramIds.contains q = true
      · rw [if_pos hsel] at hpid ⊢
        exact h pid (List.mem_of_mem_filter hpid)
      · rw [if_neg hsel] at hpid ⊢
        rcases List.mem_append.mp hpid with hL | hR
        · exact h pid hL
        · have hpq : pid = q := List.mem_singleton.mp hR
          subst hpq
          exact visible_mem_cache s inst pid hvis
    · rw [if_neg hvis] at hpid ⊢
      exact h pid hpid

/-- C7: over every reachable session state, `selectedProgramIds` contains
only ids that appeared in some fetched (cached) program list; and a selected
id survives every event — faculty-filter changes and institution
re-renders included — except a click on that very id's chip. -/
theorem selectedProgramIds_invariant :
    (∀ s, Reachable s → ∀ pid, pid ∈ s.selectedProgramIds →
        idInCache s.programCache pid)
    ∧ (∀ (s : UiState) (e : UiEvent) (pid : String), pid ∈ s.selectedProgramIds →
        (match e with
          | UiEvent.clickProgramChip _ q => q ≠ pid
          | _ => True) →
        pid ∈ (step s e).1.selectedProgramIds) := by
  constructor
  · intro s hs
    induction hs with
    | init => intro pid hpid; exact absurd hpid (List.not_mem_nil pid)
    | next s' e hr ih => exact step_preserves_idInCache s' e ih
  · intro s e pid hmem hne
    cases e with
    | institutionsChanged selected fetch =>
      have hids := (stepInsts_misc fetch selected
        { s with errorsList := [], resultsView := none } []).1
      rw [show (step s (UiEvent.institutionsChanged selected fetch)).1.selectedProgramIds
          = s.selectedProgramIds from hids]
      exact hmem
    | toggleFaculty inst fac checked => exact hmem
    | clickProgramChip inst q =>
      have hq : q ≠ pid := hne
      simp only [step]
      split
      · split
        · refine List.mem_filter.mpr ⟨hmem, ?_⟩
          simp [bne_iff_ne, Ne.symm hq]
        · exact List.mem_append_left _ hmem
      · exact hmem

def demoFetch : String → List Program := fun _ => demoPrograms

def ws1 : UiState := (step initState (UiEvent.institutionsChanged ["t"] demoFetch)).1

def ws2 : UiState := (step ws1 (UiEvent.toggleFaculty "t" "Eng" true)).1

def ws3 : UiState := (step ws2 (UiEvent.clickProgramChip "t" "p1")).1

theorem ws3_reachable : Reachable ws3 :=
  Reachable.next ws2 (UiEvent.clickProgramChip "t" "p1")
    (Reachable.next ws1 (UiEvent.toggleFaculty "t" "Eng" true)
      (Reachable.next initState (UiEvent.institutionsChanged ["t"] demoFetch)
        Reachable.init))

/-- C7 witness: in the state reached by checking institution "t", checking
faculty "Eng" and selecting program "p1", the selected id "p1" is backed by
the cached list, and an unchecking of the faculty keeps it selected. -/
theorem selectedProgramIds_invariant_witness :
    idInCache ws3.programCache "p1"
    ∧ "p1" ∈ (step ws3 (UiEvent.toggleFaculty "t" "Eng" false)).1.selectedProgramIds :=
  ⟨selectedProgramIds_invariant.1 ws3 ws3_reachable "p1" (by decide),
   selectedProgramIds_invariant.2 ws3 (UiEvent.toggleFaculty "t" "Eng" false) "p1"
     (by decide) trivial⟩

/-- C8: an institution-change event with an institution unchecked (absent
from the selected list) leaves that institution's program-cache entry and its
faculty-selection entry untouched; and a cached institution is never fetched
again — on re-check its cache entry is reused unchanged and no fetch action
for it is emitted. -/
theorem institutionToggle_cache_frame (st : UiState) (selected : List String)
    (fetch : String → List Program) (inst : String) (l : List Program) :
    (inst ∉ selected →
      alookup (step st (UiEvent.institutionsChanged selected fetch)).1.programCache inst
          = alookup st.programCache inst
      ∧ alookup (step st (UiEvent.institutionsChanged selected fetch)).1.facultySelections
            inst
          = alookup st.facultySelections inst)
    ∧ (alookup st.programCache inst = some l →
      alookup (step st (UiEvent.institutionsChanged selected fetch)).1.programCache inst
          = some l
      ∧ UiAction.fetchProgramsAct inst
          ∉ (step st (UiEvent.institutionsChanged selected fetch)).2) := by
  constructor
  · intro h
    exact stepInsts_other_key fetch selected
      { st with errorsList := [], resultsView := none } [] inst h
  · intro h
    refine ⟨stepInsts_cache_some fetch selected
      { st with errorsList := [], resultsView := none } [] inst l h, ?_⟩
    intro hmem
    have hni : UiAction.fetchProgramsAct inst
        ∉ (stepInsts fetch ({ st with errorsList := [], resultsView := none }, [])
            selected).2 :=
      stepInsts_no_refetch fetch selected
        { st with errorsList := [], resultsView := none } [] inst l h
        (List.not_mem_nil _)
    rcases List.mem_cons.mp hmem with h1 | h2
    · exact UiAction.noConfusion h1
    · rcases List.mem_cons.mp h2 with h3 | h4
      · exact UiAction.noConfusion h3
      · exact hni h4

def demoSt : UiState := ⟨[("t", demoPrograms)], [("t", ["Eng"])], [], [], none⟩

/-- C8 witness: with "t" cached, unchecking every institution leaves the
cache and faculty-selection entries of "t" as they were, and re-checking "t"
reuses the cached list with no fetch action for it. -/
theorem institutionToggle_cache_frame_witness :
    (alookup (step demoSt (UiEvent.institutionsChanged [] demoFetch)).1.programCache "t"
        = alookup demoSt.programCache "t"
      ∧ alookup (step demoSt
            (UiEvent.institutionsChanged [] demoFetch)).1.facultySelections "t"
        = alookup demoSt.facultySelections "t")
    ∧ (alookup (step demoSt (UiEvent.institutionsChanged ["t"] demoFetch)).1.programCache
          "t"
        = some demoPrograms
      ∧ UiAction.fetchProgramsAct "t"
          ∉ (step demoSt (UiEvent.institutionsChanged ["t"] demoFetch)).2) :=
  ⟨(institutionToggle_cache_frame demoSt [] demoFetch "t" demoPrograms).1
      (List.not_mem_nil "t"),
   (institutionToggle_cache_frame demoSt ["t"] demoFetch "t" demoPrograms).2 (by decide)⟩

end DegreeFinder
